import Mathlib

/-!
Verification of the rule matching and action dispatch engine of
`niri-thing-doer` (`src/main.rs`).

The embedding models strings as `List Char`, the compositor socket as a
function from requests to send outcomes, and the stateful pieces
(`matched_windows`, the event loop) as explicit state passing.  Each
definition mirrors the corresponding Rust item and keeps its name.
-/

namespace Niri

/-- Strings are modelled as lists of characters. -/
abbrev Str := List Char

/-- `type WindowId = u64;` (widths never overflow in the modelled logic). -/
abbrev WindowId := Nat

/-- `niri_ipc::Window`, restricted to the fields the program reads. -/
structure Window where
  id : WindowId
  title : Option Str
  app_id : Option Str
  pid : Option Int
  is_focused : Bool
  is_floating : Bool
  is_urgent : Bool
deriving DecidableEq

/-- A compiled regex, modelled by its match predicate (`Regex::is_match`). -/
structure CompiledRegex where
  is_match : Str → Bool

/-- `window_rule::Match`: one matcher.  `app_id`/`title` hold the compiled
pattern of the wrapper tuple struct accessed as `m.app_id.as_ref()?.0`. -/
structure Match where
  app_id : Option CompiledRegex
  title : Option CompiledRegex
  is_urgent : Option Bool
  is_floating : Option Bool
  is_focused : Option Bool

/-- `kdl_utils::DefaultPresetSize(Option<SizeChange>)`; the inner size change
is modelled as an integer delta. -/
structure DefaultPresetSize where
  change : Option Int

/-- `window_rule::WindowRule`: include matchers (`matches`), exclude matchers
(`excludes`) and the optional action bundle, as read by `main.rs`. -/
structure WindowRule where
  matches' : List Match
  excludes : List Match
  open_floating : Option Bool
  default_column_width : Option DefaultPresetSize
  default_window_height : Option DefaultPresetSize
  spawn_sh : Option Str

/-- `fn window_matches(window: &Window, m: &Match) -> bool`.

The regex part folds over `[(m.app_id, window.app_id), (m.title, window.title)]`,
skipping unset patterns (`?` inside `filter_map`) and substituting the empty
string for an absent window field (`unwrap_or_default`).

The state part is `[m.is_urgent, m.is_floating, m.is_focused].into_iter()
.flatten().all(identity)`: it keeps the set expected values and requires each
of them to be `true`; the window's own flags are never consulted. -/
def window_matches (window : Window) (m : Match) : Bool :=
  let regex_rules :=
    ([(m.app_id, window.app_id), (m.title, window.title)].filterMap
      (fun mw => mw.1.map (fun re => re.is_match (mw.2.getD [])))).all id
  let state_rules :=
    ([m.is_urgent, m.is_floating, m.is_focused].filterMap id).all id
  regex_rules && state_rules

/-- `fn rule_applies(window: &Window, wr: &WindowRule) -> bool`. -/
def rule_applies (window : Window) (wr : WindowRule) : Bool :=
  if wr.excludes.any (fun m => window_matches window m) then false
  else wr.matches'.any (fun m => window_matches window m)

/-- `fn rules_that_apply`: `windowrules.iter().enumerate().filter(...)`. -/
def rules_that_apply (window : Window) (windowrules : List WindowRule) :
    List (Nat × WindowRule) :=
  windowrules.enum.filter (fun p => rule_applies window p.2)

/-- A matcher with no fields set. -/
def emptyMatch : Match := ⟨none, none, none, none, none⟩

/-- A matcher whose only set field is `is_floating: false`. -/
def floatFalseMatch : Match := ⟨none, none, none, some false, none⟩

/-- A matcher whose only set field is `is_floating: true`. -/
def floatTrueMatch : Match := ⟨none, none, none, some true, none⟩

/-- A non-floating, unfocused, non-urgent window with identifier `id`. -/
def plainWindow (id : WindowId) : Window :=
  ⟨id, none, none, none, false, false, false⟩

/-- The same window as `plainWindow`, but floating. -/
def floatingWindow (id : WindowId) : Window :=
  ⟨id, none, none, none, false, true, false⟩

/-- `niri_ipc::Action`, restricted to the variants the program sends. -/
inductive Action where
  | MoveWindowToFloating (id : Option WindowId)
  | MoveWindowToTiling (id : Option WindowId)
  | SetWindowHeight (id : Option WindowId) (change : Int)
  | SetWindowWidth (id : Option WindowId) (change : Int)
  | SpawnSh (command : Str)
deriving DecidableEq

/-- `niri_ipc::Request`, restricted to the variants the program sends. -/
inductive Request where
  | EventStream
  | Action (a : Action)
deriving DecidableEq

/-- `niri_ipc::Response`: `Handled` or any other payload (the program only
distinguishes `Handled` from everything else). -/
inductive Response where
  | Handled
  | OtherResponse
deriving DecidableEq

/-- Outcome of one `Socket::send`: a transport (io) error, a compositor
error reply (`Reply = Err(msg)`), or a response payload (`Reply = Ok(resp)`). -/
inductive SendOutcome where
  | ioError
  | replyErr
  | replyOk (r : Response)
deriving DecidableEq

/-- The sending socket, modelled as a function giving the outcome of each
request sent on it. -/
abbrev Sock := Request → SendOutcome

/-- A socket on which every request succeeds with a `Handled` reply. -/
def sockOK : Sock := fun _ => SendOutcome.replyOk Response.Handled

/-- A socket on which every request draws an error reply. -/
def sockErr : Sock := fun _ => SendOutcome.replyErr

/-- `fn handle_send(req, socket) -> miette::Result<()>`, as a success flag:
a transport error (`into_diagnostic()?`), an error reply, or a non-`Handled`
response all produce an error; only `Ok(Response::Handled)` succeeds. -/
def handle_send (req : Request) (sock : Sock) : Bool :=
  match sock req with
  | SendOutcome.replyOk Response.Handled => true
  | _ => false

/-- Fuel-indexed core of `str::replace`: scans `s` left to right, replacing
each leftmost non-overlapping occurrence of `pat` by `rep` and resuming after
it.  The fuel only makes the recursion structural; `replaceAll` supplies
`s.length`, which the scan never exhausts (each step consumes at least one
character of `s`). -/
def replaceAllAux (pat rep : Str) : Nat → Str → Str
  | 0, s => s
  | _ + 1, [] => []
  | fuel + 1, c :: rest =>
    if pat ≠ [] ∧ pat.isPrefixOf (c :: rest) then
      rep ++ replaceAllAux pat rep fuel ((c :: rest).drop pat.length)
    else
      c :: replaceAllAux pat rep fuel rest

/-- Rust `str::replace(pat, rep)` on `s`.  The four patterns used by the
program are the nonempty placeholder literals, so the empty-pattern corner of
`str::replace` (a match at every boundary) is not modelled: here an empty
pattern leaves `s` unchanged. -/
def replaceAll (s pat rep : Str) : Str := replaceAllAux pat rep s.length s

/-- The placeholder `"\x7bid\x7d"`. -/
def phId : Str := "{id}".data

/-- The placeholder `"\x7btitle\x7d"`. -/
def phTitle : Str := "{title}".data

/-- The placeholder `"\x7bapp_id\x7d"`. -/
def phAppId : Str := "{app_id}".data

/-- The placeholder `"\x7bpid\x7d"`. -/
def phPid : Str := "{pid}".data

/-- The spawn command built in `take_windowrule_actions`: the template with
the four placeholders substituted by `.replace` in source order (`id`, then
`title`, then `app_id`, then `pid`); absent `title`/`app_id` substitute as the
empty string (`unwrap_or_default`), an absent `pid` as `""`, a present one in
decimal (`to_string`). -/
def spawn_command (window : Window) (command : Str) : Str :=
  let id := (Nat.repr window.id).data
  let title := window.title.getD []
  let app_id := window.app_id.getD []
  let pid := match window.pid with
    | none => []
    | some p => (Int.repr p).data
  replaceAll (replaceAll (replaceAll (replaceAll command phId id)
    phTitle title) phAppId app_id) phPid pid

/-- `fn take_windowrule_actions(window, windowrule, socket)`, returning the
requests sent in order together with the success flag of the `Result`.  Each
failing `handle_send` aborts the remaining steps (`?`).  For the spawn step
the code discards the reply (`let _ = socket.send(..)?;`), so only a
transport error fails there. -/
def take_windowrule_actions (window : Window) (windowrule : WindowRule)
    (sock : Sock) : List Request × Bool :=
  let placement : List Request × Bool :=
    match windowrule.open_floating with
    | none => ([], true)
    | some open_floating =>
      let req := Request.Action (match open_floating with
        | true => Action.MoveWindowToFloating (some window.id)
        | false => Action.MoveWindowToTiling (some window.id))
      ([req], handle_send req sock)
  if placement.2 then
    let height : List Request × Bool :=
      match windowrule.default_window_height with
      | some ⟨some change⟩ =>
        let req := Request.Action (Action.SetWindowHeight (some window.id) change)
        ([req], handle_send req sock)
      | _ => ([], true)
    if height.2 then
      let width : List Request × Bool :=
        match windowrule.default_column_width with
        | some ⟨some change⟩ =>
          let req := Request.Action (Action.SetWindowWidth (some window.id) change)
          ([req], handle_send req sock)
        | _ => ([], true)
      if width.2 then
        match windowrule.spawn_sh with
        | none => (placement.1 ++ height.1 ++ width.1, true)
        | some command =>
          let req := Request.Action (Action.SpawnSh (spawn_command window command))
          match sock req with
          | SendOutcome.ioError => (placement.1 ++ height.1 ++ width.1 ++ [req], false)
          | _ => (placement.1 ++ height.1 ++ width.1 ++ [req], true)
      else (placement.1 ++ height.1 ++ width.1, false)
    else (placement.1 ++ height.1, false)
  else placement

/-- One rule's set of already-actioned window identifiers
(`HashSet<WindowId>`), modelled as a list without duplicate concerns. -/
abbrev IdSet := List WindowId

/-- Result of `handle_window`: the updated `matched_windows` state, the rule
indices whose actions were dispatched during the call, the requests sent, and
the success flag of the `Result`. -/
structure WindowOut where
  matched : List IdSet
  fired : List Nat
  trace : List Request
  ok : Bool
deriving DecidableEq

/-- The loop body of `handle_window`: for each applying rule in order, if
`matched_windows[rule_idx].insert(window.id)` inserts (the id was absent),
the insertion is kept and the rule's actions run; an action error aborts the
loop (`?`) with the insertion already performed.  In `main` every `rule_idx`
is below `matched.length`, so `List.set` never falls out of range. -/
def handle_window_go (window : Window) (sock : Sock) :
    List (Nat × WindowRule) → List IdSet → WindowOut
  | [], matched => ⟨matched, [], [], true⟩
  | (rule_idx, wr) :: rest, matched =>
    if window.id ∈ matched.getD rule_idx [] then
      handle_window_go window sock rest matched
    else
      let matched' := matched.set rule_idx (window.id :: matched.getD rule_idx [])
      let step := take_windowrule_actions window wr sock
      if step.2 then
        let o := handle_window_go window sock rest matched'
        ⟨o.matched, rule_idx :: o.fired, step.1 ++ o.trace, o.ok⟩
      else
        ⟨matched', [rule_idx], step.1, false⟩

/-- `fn handle_window(window, windowrules, matched_windows, socket)`. -/
def handle_window (window : Window) (windowrules : List WindowRule)
    (matched : List IdSet) (sock : Sock) : WindowOut :=
  handle_window_go window sock (rules_that_apply window windowrules) matched

/-- Result of handling one event (or a run of events). -/
structure HandleOut where
  matched : List IdSet
  trace : List Request
  ok : Bool
deriving DecidableEq

/-- The `Event::WindowsChanged` arm: `handle_window` on each window in order,
aborting on the first error (`?`). -/
def handle_windows (windowrules : List WindowRule) (sock : Sock) :
    List Window → List IdSet → HandleOut
  | [], matched => ⟨matched, [], true⟩
  | w :: ws, matched =>
    let o := handle_window w windowrules matched sock
    if o.ok then
      let o2 := handle_windows windowrules sock ws o.matched
      ⟨o2.matched, o.trace ++ o2.trace, o2.ok⟩
    else ⟨o.matched, o.trace, false⟩

/-- `niri_ipc::Event`, restricted to the variants the program distinguishes. -/
inductive Event where
  | WindowsChanged (windows : List Window)
  | WindowOpenedOrChanged (window : Window)
  | WindowClosed (id : WindowId)
  | OtherEvent

/-- One iteration of the `while let Ok(event)` loop in `main`.  The
`WindowClosed` arm is `drop(matched_windows.iter_mut().map(|x| x.remove(&id)))`:
`Iterator::map` is lazy and the adapter is dropped unconsumed, so no `remove`
ever runs and the state is unchanged. -/
def handle_event (windowrules : List WindowRule) (sock : Sock)
    (matched : List IdSet) : Event → HandleOut
  | Event.WindowsChanged windows => handle_windows windowrules sock windows matched
  | Event.WindowOpenedOrChanged window =>
    let o := handle_window window windowrules matched sock
    ⟨o.matched, o.trace, o.ok⟩
  | Event.WindowClosed _ => ⟨matched, [], true⟩
  | Event.OtherEvent => ⟨matched, [], true⟩

/-- The Streaming phase of `main`: the decoded events in arrival order, each
handled by `handle_event`; a handler error exits `main` through `?`, leaving
the remaining events unprocessed. -/
def run_events (windowrules : List WindowRule) (sock : Sock) :
    List IdSet → List Event → HandleOut
  | matched, [] => ⟨matched, [], true⟩
  | matched, e :: es =>
    let o := handle_event windowrules sock matched e
    if o.ok then
      let o2 := run_events windowrules sock o.matched es
      ⟨o2.matched, o.trace ++ o2.trace, o2.ok⟩
    else ⟨o.matched, o.trace, false⟩

/-- A rule that applies to every window and floats it. -/
def rule0 : WindowRule := ⟨[emptyMatch], [], some true, none, none, none⟩

/-- A rule that applies to every window and carries all four actions. -/
def ruleAll : WindowRule :=
  ⟨[emptyMatch], [], some true, some ⟨some 20⟩, some ⟨some 10⟩, some "x".data⟩

/-- C9: a Matcher with no fields set matches every window. -/
theorem c9_empty_matcher_matches_all (w : Window) :
    window_matches w emptyMatch = true := rfl

/-- C1: the code does not compare a set boolean matcher field with the
window's flag.  A matcher with `is_floating = false` matches no window at all
(in particular it rejects the non-floating window it should accept), and a
matcher with `is_floating = true` matches every window, floating or not. -/
theorem c1_state_matcher_ignores_window_flags :
    (∀ w : Window, window_matches w floatFalseMatch = false) ∧
    (∀ w : Window, window_matches w floatTrueMatch = true) ∧
    window_matches (plainWindow 1) floatFalseMatch = false ∧
    window_matches (floatingWindow 1) floatTrueMatch = true :=
  ⟨fun _ => rfl, fun _ => rfl, rfl, rfl⟩

/-- C6: if some exclude-Matcher of a rule matches the window, the rule does
not apply, whatever the include list (and the other rule fields) are. -/
theorem c6_excludes_take_priority (w : Window) (wr : WindowRule)
    (h : ∃ m ∈ wr.excludes, window_matches w m = true) :
    rule_applies w wr = false := by
  have hany : wr.excludes.any (fun m => window_matches w m) = true := by
    rcases h with ⟨m, hm, hmatch⟩
    exact List.any_eq_true.mpr ⟨m, hm, hmatch⟩
  simp [rule_applies, hany]

/-- Witness for C6 at a concrete rule and window. -/
theorem c6_excludes_take_priority_witness :
    (∃ m ∈ (WindowRule.mk [emptyMatch] [emptyMatch] none none none none).excludes,
        window_matches (plainWindow 1) m = true) ∧
    rule_applies (plainWindow 1)
        (WindowRule.mk [emptyMatch] [emptyMatch] none none none none) = false :=
  ⟨⟨emptyMatch, List.mem_singleton.mpr rfl, rfl⟩,
    c6_excludes_take_priority (plainWindow 1) _
      ⟨emptyMatch, List.mem_singleton.mpr rfl, rfl⟩⟩

/-- C7: a rule whose include list is empty applies to no window. -/
theorem c7_empty_includes_never_applies (w : Window) (wr : WindowRule)
    (h : wr.matches' = []) : rule_applies w wr = false := by
  unfold rule_applies
  rw [h]
  split <;> rfl

/-- Witness for C7 at a concrete rule and window. -/
theorem c7_empty_includes_never_applies_witness :
    (WindowRule.mk [] [] (some true) none none none).matches' = [] ∧
    rule_applies (plainWindow 1)
        (WindowRule.mk [] [] (some true) none none none) = false :=
  ⟨rfl, c7_empty_includes_never_applies (plainWindow 1) _ rfl⟩

/-- Indices produced by `rules_that_apply` are below the rule count. -/
theorem rules_that_apply_lt (w : Window) (rules : List WindowRule)
    {p : Nat × WindowRule} (hp : p ∈ rules_that_apply w rules) :
    p.1 < rules.length := by
  have hmem : p ∈ rules.enum := (List.mem_filter.mp hp).1
  have hget := List.mem_enum_iff_getElem?.mp hmem
  rcases List.getElem?_eq_some.mp hget with ⟨h, _⟩
  exact h

/-- `getD` after `set` at the same, in-range index. -/
theorem getD_set_self (l : List IdSet) (j : Nat) (v : IdSet) (h : j < l.length) :
    (l.set j v).getD j [] = v := by
  induction l generalizing j with
  | nil => simp at h
  | cons a tl ih =>
    cases j with
    | zero => rfl
    | succ j => exact ih j (Nat.lt_of_succ_lt_succ h)

/-- `getD` after `set` at a different index. -/
theorem getD_set_ne (l : List IdSet) (i j : Nat) (v : IdSet) (h : i ≠ j) :
    (l.set j v).getD i [] = l.getD i [] := by
  induction l generalizing i j with
  | nil => rfl
  | cons a tl ih =>
    cases j with
    | zero =>
      cases i with
      | zero => exact absurd rfl h
      | succ i => rfl
    | succ j =>
      cases i with
      | zero => rfl
      | succ i => exact ih i j (fun hh => h (by rw [hh]))

/-- `set` out of range is the identity. -/
theorem set_of_length_le (l : List IdSet) (j : Nat) (v : IdSet)
    (h : l.length ≤ j) : l.set j v = l := by
  induction l generalizing j with
  | nil => rfl
  | cons a tl ih =>
    cases j with
    | zero => simp at h
    | succ j =>
      show a :: tl.set j v = a :: tl
      rw [ih j (Nat.le_of_succ_le_succ h)]

/-- Inserting into slot `j` preserves every recorded membership. -/
theorem mem_getD_set_insert (l : List IdSet) (j : Nat) (y : WindowId) (i : Nat)
    (x : WindowId) (hx : x ∈ l.getD i []) :
    x ∈ (l.set j (y :: l.getD j [])).getD i [] := by
  by_cases hij : i = j
  · subst hij
    by_cases hj : i < l.length
    · rw [getD_set_self l i _ hj]
      exact List.mem_cons_of_mem _ hx
    · rw [set_of_length_le l i _ (Nat.le_of_not_lt hj)]
      exact hx
  · rw [getD_set_ne l i j _ hij]
    exact hx

/-- `handle_window_go` never changes the number of per-rule sets. -/
theorem go_length (w : Window) (sock : Sock) :
    ∀ (pairs : List (Nat × WindowRule)) (matched : List IdSet),
    (handle_window_go w sock pairs matched).matched.length = matched.length := by
  intro pairs
  induction pairs with
  | nil => intro matched; rfl
  | cons p rest ih =>
    intro matched
    obtain ⟨j, wr⟩ := p
    simp only [handle_window_go]
    split
    · exact ih matched
    · split
      · simp [ih]
      · simp

/-- `handle_window_go` only ever adds identifiers to the per-rule sets. -/
theorem go_mono (w : Window) (sock : Sock) :
    ∀ (pairs : List (Nat × WindowRule)) (matched : List IdSet) (i : Nat)
      (x : WindowId), x ∈ matched.getD i [] →
    x ∈ (handle_window_go w sock pairs matched).matched.getD i [] := by
  intro pairs
  induction pairs with
  | nil => intro matched i x hx; exact hx
  | cons p rest ih =>
    intro matched i x hx
    obtain ⟨j, wr⟩ := p
    simp only [handle_window_go]
    split
    · exact ih matched i x hx
    · split
      · exact ih _ i x (mem_getD_set_insert matched j w.id i x hx)
      · exact mem_getD_set_insert matched j w.id i x hx

/-- A rule index fired by `handle_window_go` was not yet recorded for this
window on entry, and is recorded in the resulting state — even when the run
ends in an error. -/
theorem go_fired (w : Window) (sock : Sock) :
    ∀ (pairs : List (Nat × WindowRule)) (matched : List IdSet) (idx : Nat),
    (∀ p ∈ pairs, p.1 < matched.length) →
    idx ∈ (handle_window_go w sock pairs matched).fired →
    w.id ∉ matched.getD idx [] ∧
      w.id ∈ (handle_window_go w sock pairs matched).matched.getD idx [] := by
  intro pairs
  induction pairs with
  | nil => intro matched idx _ hf; simp [handle_window_go] at hf
  | cons p rest ih =>
    intro matched idx hlen hf
    obtain ⟨j, wr⟩ := p
    have hjlen : j < matched.length := hlen (j, wr) (List.mem_cons_self _ _)
    have hlen' : ∀ p ∈ rest, p.1 < matched.length :=
      fun p hp => hlen p (List.mem_cons_of_mem _ hp)
    simp only [handle_window_go] at hf ⊢
    by_cases hmem : w.id ∈ matched.getD j []
    · rw [if_pos hmem] at hf ⊢
      exact ih matched idx hlen' hf
    · rw [if_neg hmem] at hf ⊢
      have hset : ∀ p ∈ rest,
          p.1 < (matched.set j (w.id :: matched.getD j [])).length := by
        intro p hp
        rw [List.length_set]
        exact hlen' p hp
      have hselfmem :
          w.id ∈ (matched.set j (w.id :: matched.getD j [])).getD j [] := by
        rw [getD_set_self matched j _ hjlen]
        exact List.mem_cons_self _ _
      cases hstep : (take_windowrule_actions w wr sock).2 with
      | true =>
        rw [hstep] at hf
        rw [if_pos rfl] at hf ⊢
        rcases List.mem_cons.mp hf with hidx | hidx
        · subst hidx
          exact ⟨hmem, go_mono w sock rest _ _ w.id hselfmem⟩
        · rcases ih _ idx hset hidx with ⟨h1, h2⟩
          refine ⟨fun hin => h1 ?_, h2⟩
          exact mem_getD_set_insert matched j w.id idx w.id hin
      | false =>
        rw [hstep] at hf
        rw [if_neg (by decide)] at hf ⊢
        rcases List.mem_cons.mp hf with hidx | hidx
        · subst hidx
          exact ⟨hmem, hselfmem⟩
        · exact absurd hidx (List.not_mem_nil idx)

/-- After a fully successful `handle_window_go`, every rule index in the list
has the window recorded in its set. -/
theorem go_ok_all_recorded (w : Window) (sock : Sock) :
    ∀ (pairs : List (Nat × WindowRule)) (matched : List IdSet),
    (∀ p ∈ pairs, p.1 < matched.length) →
    (handle_window_go w sock pairs matched).ok = true →
    ∀ p ∈ pairs,
      w.id ∈ (handle_window_go w sock pairs matched).matched.getD p.1 [] := by
  intro pairs
  induction pairs with
  | nil => intro matched _ _ p hp; exact absurd hp (List.not_mem_nil p)
  | cons q rest ih =>
    intro matched hlen hok p hp
    obtain ⟨j, wr⟩ := q
    have hjlen : j < matched.length := hlen (j, wr) (List.mem_cons_self _ _)
    have hlen' : ∀ p ∈ rest, p.1 < matched.length :=
      fun p hp => hlen p (List.mem_cons_of_mem _ hp)
    simp only [handle_window_go] at hok ⊢
    by_cases hmem : w.id ∈ matched.getD j []
    · rw [if_pos hmem] at hok ⊢
      rcases List.mem_cons.mp hp with hq | hq
      · subst hq
        exact go_mono w sock rest matched j w.id hmem
      · exact ih matched hlen' hok p hq
    · rw [if_neg hmem] at hok ⊢
      have hset : ∀ p ∈ rest,
          p.1 < (matched.set j (w.id :: matched.getD j [])).length := by
        intro p hp
        rw [List.length_set]
        exact hlen' p hp
      have hselfmem :
          w.id ∈ (matched.set j (w.id :: matched.getD j [])).getD j [] := by
        rw [getD_set_self matched j _ hjlen]
        exact List.mem_cons_self _ _
      cases hstep : (take_windowrule_actions w wr sock).2 with
      | true =>
        rw [hstep] at hok
        rw [if_pos rfl] at hok ⊢
        rcases List.mem_cons.mp hp with hq | hq
        · subst hq
          exact go_mono w sock rest _ j w.id hselfmem
        · exact ih _ hset hok p hq
      | false =>
        rw [hstep] at hok
        rw [if_neg (by decide)] at hok
        exact Bool.noConfusion hok

/-- If every listed rule index already records the window, `handle_window_go`
does nothing. -/
theorem go_all_present (w : Window) (sock : Sock) :
    ∀ (pairs : List (Nat × WindowRule)) (matched : List IdSet),
    (∀ p ∈ pairs, w.id ∈ matched.getD p.1 []) →
    handle_window_go w sock pairs matched = ⟨matched, [], [], true⟩ := by
  intro pairs
  induction pairs with
  | nil => intro matched _; rfl
  | cons q rest ih =>
    intro matched hall
    obtain ⟨j, wr⟩ := q
    have hmem : w.id ∈ matched.getD j [] := hall (j, wr) (List.mem_cons_self _ _)
    simp only [handle_window_go]
    rw [if_pos hmem]
    exact ih matched (fun p hp => hall p (List.mem_cons_of_mem _ hp))

/-- C2: handling a window-closed event removes nothing.  The source drops the
lazy `map` adapter unconsumed, so the dedup state is unchanged; consequently,
in the end-to-end run open(42) — close(42) — open(42) against a rule matching
every window, the float command is emitted only once, where the spec expects
it to fire again after the close. -/
theorem c2_window_closed_removes_nothing :
    (∀ (windowrules : List WindowRule) (sock : Sock) (matched : List IdSet)
      (id : WindowId),
      handle_event windowrules sock matched (Event.WindowClosed id) =
        ⟨matched, [], true⟩) ∧
    run_events [rule0] sockOK [[]]
      [Event.WindowOpenedOrChanged (plainWindow 42), Event.WindowClosed 42,
        Event.WindowOpenedOrChanged (plainWindow 42)] =
      ⟨[[42]], [Request.Action (Action.MoveWindowToFloating (some 42))], true⟩ :=
  ⟨fun _ _ _ _ => rfl, by decide⟩

/-- C5: a rule fires for a window identifier at most once while the id stays
recorded.  If rule `idx` dispatched during one `handle_window` call, a second
call for the same window (over any socket) does not dispatch it again; and if
the first call succeeded, the second call emits no request at all. -/
theorem c5_rule_fires_at_most_once (windowrules : List WindowRule)
    (sock sock' : Sock) (w : Window) (matched : List IdSet)
    (idx : Nat) (hlen : windowrules.length ≤ matched.length) :
    (idx ∈ (handle_window w windowrules matched sock).fired →
      idx ∉ (handle_window w windowrules
        (handle_window w windowrules matched sock).matched sock').fired) ∧
    ((handle_window w windowrules matched sock).ok = true →
      (handle_window w windowrules
        (handle_window w windowrules matched sock).matched sock').trace = [] ∧
      (handle_window w windowrules
        (handle_window w windowrules matched sock).matched sock').fired = []) := by
  have hplen : ∀ p ∈ rules_that_apply w windowrules, p.1 < matched.length :=
    fun p hp => Nat.lt_of_lt_of_le (rules_that_apply_lt w windowrules hp) hlen
  have hplen' : ∀ p ∈ rules_that_apply w windowrules,
      p.1 < (handle_window w windowrules matched sock).matched.length := by
    intro p hp
    rw [handle_window, go_length]
    exact hplen p hp
  constructor
  · intro h1 h2
    rcases go_fired w sock _ matched idx hplen h1 with ⟨_, hin⟩
    rcases go_fired w sock' _ _ idx hplen' h2 with ⟨hnotin, _⟩
    exact hnotin hin
  · intro hok
    have hall : ∀ p ∈ rules_that_apply w windowrules,
        w.id ∈ (handle_window w windowrules matched sock).matched.getD p.1 [] :=
      go_ok_all_recorded w sock _ matched hplen hok
    have := go_all_present w sock' (rules_that_apply w windowrules)
      (handle_window w windowrules matched sock).matched hall
    rw [handle_window, this]
    exact ⟨rfl, rfl⟩

/-- Witness for C5: one always-matching rule, a succeeding socket. -/
theorem c5_rule_fires_at_most_once_witness :
    ([rule0].length ≤ ([[]] : List IdSet).length) ∧
    (0 ∈ (handle_window (plainWindow 42) [rule0] [[]] sockOK).fired) ∧
    0 ∉ (handle_window (plainWindow 42) [rule0]
      (handle_window (plainWindow 42) [rule0] [[]] sockOK).matched sockOK).fired :=
  ⟨by decide, by decide,
    (c5_rule_fires_at_most_once [rule0] sockOK sockOK (plainWindow 42) [[]] 0
      (by decide)).1 (by decide)⟩

/-- C10: the window identifier enters the rule's dedup set before any action
is sent, and the state is not rolled back when dispatch fails: every rule
index attempted in a failing `handle_window` call has the id recorded in the
resulting state, and a second call for the same window (over any socket,
including one that would now succeed) does not dispatch it again. -/
theorem c10_failed_dispatch_not_retried (windowrules : List WindowRule)
    (sock sock' : Sock) (w : Window) (matched : List IdSet) (idx : Nat)
    (hlen : windowrules.length ≤ matched.length)
    (_hfail : (handle_window w windowrules matched sock).ok = false)
    (hfired : idx ∈ (handle_window w windowrules matched sock).fired) :
    w.id ∈ (handle_window w windowrules matched sock).matched.getD idx [] ∧
      idx ∉ (handle_window w windowrules
        (handle_window w windowrules matched sock).matched sock').fired := by
  have hplen : ∀ p ∈ rules_that_apply w windowrules, p.1 < matched.length :=
    fun p hp => Nat.lt_of_lt_of_le (rules_that_apply_lt w windowrules hp) hlen
  have hplen' : ∀ p ∈ rules_that_apply w windowrules,
      p.1 < (handle_window w windowrules matched sock).matched.length := by
    intro p hp
    rw [handle_window, go_length]
    exact hplen p hp
  rcases go_fired w sock _ matched idx hplen hfired with ⟨_, hin⟩
  refine ⟨hin, fun h2 => ?_⟩
  rcases go_fired w sock' _ _ idx hplen' h2 with ⟨hnotin, _⟩
  exact hnotin hin

/-- Witness for C10: the placement send fails, the id is recorded anyway, and
a retry over a healthy socket does not re-dispatch the rule. -/
theorem c10_failed_dispatch_not_retried_witness :
    ((handle_window (plainWindow 42) [rule0] [[]] sockErr).ok = false) ∧
    (0 ∈ (handle_window (plainWindow 42) [rule0] [[]] sockErr).fired) ∧
    (42 ∈ (handle_window (plainWindow 42) [rule0] [[]] sockErr).matched.getD 0 [] ∧
      0 ∉ (handle_window (plainWindow 42) [rule0]
        (handle_window (plainWindow 42) [rule0] [[]] sockErr).matched sockOK).fired) :=
  ⟨by decide, by decide,
    c10_failed_dispatch_not_retried [rule0] sockErr sockOK (plainWindow 42) [[]] 0
      (by decide) (by decide) (by decide)⟩

/-- C4 counterexample: with every action field set, the dispatched sequence
is placement, row-height (`SetWindowHeight`), column-width (`SetWindowWidth`),
spawn — not the claimed placement, column-width, row-height, spawn. -/
theorem c4_counterexample :
    (take_windowrule_actions (plainWindow 7) ruleAll sockOK).1 =
      [Request.Action (Action.MoveWindowToFloating (some 7)),
        Request.Action (Action.SetWindowHeight (some 7) 10),
        Request.Action (Action.SetWindowWidth (some 7) 20),
        Request.Action (Action.SpawnSh "x".data)] ∧
    (take_windowrule_actions (plainWindow 7) ruleAll sockOK).1 ≠
      [Request.Action (Action.MoveWindowToFloating (some 7)),
        Request.Action (Action.SetWindowWidth (some 7) 20),
        Request.Action (Action.SetWindowHeight (some 7) 10),
        Request.Action (Action.SpawnSh "x".data)] := by
  constructor <;> decide

/-- C4 (amended): for a rule with all action fields set and a socket that
acknowledges every request, the dispatched sequence is placement first, then
the row-height adjustment, then the column-width adjustment, then spawn. -/
theorem c4_emission_order (w : Window) (incl excl : List Match) (b : Bool)
    (hgt wdt : Int) (tpl : Str) (sock : Sock)
    (hsock : ∀ r, sock r = SendOutcome.replyOk Response.Handled) :
    (take_windowrule_actions w
        ⟨incl, excl, some b, some ⟨some wdt⟩, some ⟨some hgt⟩, some tpl⟩
        sock).1 =
      [Request.Action (match b with
        | true => Action.MoveWindowToFloating (some w.id)
        | false => Action.MoveWindowToTiling (some w.id)),
        Request.Action (Action.SetWindowHeight (some w.id) hgt),
        Request.Action (Action.SetWindowWidth (some w.id) wdt),
        Request.Action (Action.SpawnSh (spawn_command w tpl))] := by
  simp [take_windowrule_actions, handle_send, hsock]

/-- Witness for C4 (amended) at a concrete rule, window and socket. -/
theorem c4_emission_order_witness :
    (∀ r, sockOK r = SendOutcome.replyOk Response.Handled) ∧
    (take_windowrule_actions (plainWindow 7)
        ⟨[emptyMatch], [], some true, some ⟨some 20⟩, some ⟨some 10⟩,
          some "x".data⟩ sockOK).1 =
      [Request.Action (Action.MoveWindowToFloating (some 7)),
        Request.Action (Action.SetWindowHeight (some 7) 10),
        Request.Action (Action.SetWindowWidth (some 7) 20),
        Request.Action (Action.SpawnSh (spawn_command (plainWindow 7) "x".data))] :=
  ⟨fun _ => rfl,
    c4_emission_order (plainWindow 7) [emptyMatch] [] true 10 20 "x".data sockOK
      (fun _ => rfl)⟩

/-- C3 counterexample: when the first action of a matched rule fails, the
rule's remaining actions are indeed skipped, but the error propagates out of
the event loop: the second event is never processed (the run ends with the
error) even though the rule applies to its window. -/
theorem c3_counterexample :
    run_events [ruleAll] sockErr [[]]
      [Event.WindowOpenedOrChanged (plainWindow 1),
        Event.WindowOpenedOrChanged (plainWindow 2)] =
      ⟨[[1]], [Request.Action (Action.MoveWindowToFloating (some 1))], false⟩ ∧
    rule_applies (plainWindow 2) ruleAll = true := by
  constructor <;> decide

/-- C3 (amended): a send failure during one rule's dispatch aborts that
rule's remaining actions (the requests actually sent form a prefix of the
full action sequence), and the resulting error terminates the event loop:
the events after the failing one are not processed. -/
theorem c3_dispatch_error_stops_loop :
    (∀ (w : Window) (wr : WindowRule) (sock : Sock),
      ∃ rest, (take_windowrule_actions w wr sockOK).1 =
        (take_windowrule_actions w wr sock).1 ++ rest) ∧
    (∀ (windowrules : List WindowRule) (sock : Sock) (matched : List IdSet)
      (e : Event) (es : List Event),
      (handle_event windowrules sock matched e).ok = false →
      run_events windowrules sock matched (e :: es) =
        ⟨(handle_event windowrules sock matched e).matched,
          (handle_event windowrules sock matched e).trace, false⟩) := by
  constructor
  · intro w wr sock
    obtain ⟨incl, excl, hop, hcw, hdh, hsp⟩ := wr
    rcases hop with _ | b <;> rcases hdh with _ | ⟨_ | ch⟩ <;>
      rcases hcw with _ | ⟨_ | cw⟩ <;> rcases hsp with _ | tpl <;>
      simp only [take_windowrule_actions, handle_send, sockOK,
        eq_self_iff_true, if_true] <;>
      (repeat' split) <;> exact ⟨_, rfl⟩
  · intro windowrules sock matched e es hfail
    simp only [run_events]
    rw [if_neg (by simp [hfail])]

/-- Witness for C3 (amended): the error of the first event's dispatch stops
the run before the second event. -/
theorem c3_dispatch_error_stops_loop_witness :
    ((handle_event [ruleAll] sockErr [[]]
        (Event.WindowOpenedOrChanged (plainWindow 1))).ok = false) ∧
    run_events [ruleAll] sockErr [[]]
      [Event.WindowOpenedOrChanged (plainWindow 1),
        Event.WindowOpenedOrChanged (plainWindow 2)] =
      ⟨(handle_event [ruleAll] sockErr [[]]
          (Event.WindowOpenedOrChanged (plainWindow 1))).matched,
        (handle_event [ruleAll] sockErr [[]]
          (Event.WindowOpenedOrChanged (plainWindow 1))).trace, false⟩ :=
  ⟨by decide,
    c3_dispatch_error_stops_loop.2 [ruleAll] sockErr [[]]
      (Event.WindowOpenedOrChanged (plainWindow 1))
      [Event.WindowOpenedOrChanged (plainWindow 2)] (by decide)⟩

/-- The scan result does not depend on the fuel, as long as the fuel covers
the length of the scanned string. -/
theorem replaceAllAux_fuel (pat rep : Str) :
    ∀ (f g : Nat) (s : Str), s.length ≤ f → s.length ≤ g →
      replaceAllAux pat rep f s = replaceAllAux pat rep g s := by
  intro f
  induction f with
  | zero =>
    intro g s hf _
    have hnil : s = [] := List.length_eq_zero.mp (Nat.le_zero.mp hf)
    subst hnil
    cases g <;> rfl
  | succ f ih =>
    intro g s hf hg
    cases s with
    | nil => cases g <;> rfl
    | cons c rest =>
      cases g with
      | zero => exact absurd hg (by simp)
      | succ g =>
        simp only [replaceAllAux]
        by_cases hcond : pat ≠ [] ∧ pat.isPrefixOf (c :: rest)
        · rw [if_pos hcond, if_pos hcond]
          congr 1
          have hple : 1 ≤ pat.length := by
            rcases hp : pat with _ | _
            · exact absurd rfl (hp ▸ hcond.1)
            · simp
          have hlen : ((c :: rest).drop pat.length).length ≤ rest.length := by
            simp only [List.length_drop, List.length_cons]
            omega
          exact ih g _ (Nat.le_trans hlen (Nat.le_of_succ_le_succ hf))
            (Nat.le_trans hlen (Nat.le_of_succ_le_succ hg))
        · rw [if_neg hcond, if_neg hcond]
          congr 1
          exact ih g rest (Nat.le_of_succ_le_succ hf) (Nat.le_of_succ_le_succ hg)

/-- Unfolding `replaceAll` when the pattern matches at the head. -/
theorem replaceAll_cons_pos {pat : Str} (rep : Str) {c : Char} {rest : Str}
    (h : pat ≠ [] ∧ pat.isPrefixOf (c :: rest)) :
    replaceAll (c :: rest) pat rep =
      rep ++ replaceAll ((c :: rest).drop pat.length) pat rep := by
  show replaceAllAux pat rep (c :: rest).length (c :: rest) = _
  simp only [List.length_cons]
  simp only [replaceAllAux]
  rw [if_pos h]
  congr 1
  have hple : 1 ≤ pat.length := by
    rcases hp : pat with _ | _
    · exact absurd rfl (hp ▸ h.1)
    · simp
  have hlen : ((c :: rest).drop pat.length).length ≤ rest.length := by
    simp only [List.length_drop, List.length_cons]
    omega
  exact replaceAllAux_fuel pat rep rest.length _ _ hlen (Nat.le_refl _)

/-- Unfolding `replaceAll` when the pattern does not match at the head. -/
theorem replaceAll_cons_neg {pat : Str} (rep : Str) {c : Char} {rest : Str}
    (h : ¬(pat ≠ [] ∧ pat.isPrefixOf (c :: rest))) :
    replaceAll (c :: rest) pat rep = c :: replaceAll rest pat rep := by
  show replaceAllAux pat rep (c :: rest).length (c :: rest) = _
  simp only [List.length_cons]
  simp only [replaceAllAux]
  rw [if_neg h]
  rfl

/-- A list is a `isPrefixOf`-prefix of itself followed by anything. -/
theorem isPrefixOf_append_self (l t : Str) : l.isPrefixOf (l ++ t) = true := by
  induction l with
  | nil => simp [List.isPrefixOf]
  | cons c cs ih => simp [List.isPrefixOf, ih]

/-- If the pattern occurs nowhere in `s`, `replaceAll` leaves `s` unchanged. -/
theorem replaceAll_of_no_occurrence (pat rep : Str) (_hne : pat ≠ []) :
    ∀ s : Str, (∀ i < s.length, pat.isPrefixOf (s.drop i) = false) →
      replaceAll s pat rep = s := by
  intro s
  induction s with
  | nil => intro _; rfl
  | cons c rest ih =>
    intro hno
    have h0 : pat.isPrefixOf (c :: rest) = false := by
      have := hno 0 (Nat.succ_pos _)
      simpa using this
    rw [replaceAll_cons_neg rep (by simp [h0])]
    have hrest : ∀ i < rest.length, pat.isPrefixOf (rest.drop i) = false := by
      intro i hi
      have := hno (i + 1) (Nat.succ_lt_succ hi)
      simpa using this
    rw [ih hrest]

/-- `replaceAll` rewrites the leftmost occurrence of the pattern and then
keeps scanning the remainder: occurrences after it are processed too. -/
theorem replaceAll_leftmost (pat rep : Str) (hne : pat ≠ []) :
    ∀ (a b : Str),
    (∀ i < a.length, pat.isPrefixOf ((a ++ pat ++ b).drop i) = false) →
    replaceAll (a ++ pat ++ b) pat rep = a ++ rep ++ replaceAll b pat rep := by
  intro a
  induction a with
  | nil =>
    intro b _
    rcases hp : pat with _ | ⟨p, ps⟩
    · exact absurd hp hne
    · have hpref : (p :: ps).isPrefixOf (p :: (ps ++ b)) = true := by
        show (p :: ps).isPrefixOf ((p :: ps) ++ b) = true
        exact isPrefixOf_append_self _ _
      have hdrop : (p :: (ps ++ b)).drop (p :: ps).length = b := by
        show List.drop (p :: ps).length ((p :: ps) ++ b) = b
        exact List.drop_left _ _
      show replaceAll (p :: (ps ++ b)) (p :: ps) rep = [] ++ rep ++ replaceAll b (p :: ps) rep
      rw [replaceAll_cons_pos rep ⟨by simp, hpref⟩, hdrop]
      simp
  | cons c a' ih =>
    intro b hno
    have h0 : pat.isPrefixOf (c :: (a' ++ pat ++ b)) = false := by
      have := hno 0 (by simp)
      simpa using this
    show replaceAll (c :: (a' ++ pat ++ b)) pat rep = (c :: a') ++ rep ++ replaceAll b pat rep
    rw [replaceAll_cons_neg rep (fun hcon => Bool.noConfusion (hcon.2.symm.trans h0))]
    have hrest : ∀ i < a'.length, pat.isPrefixOf ((a' ++ pat ++ b).drop i) = false := by
      intro i hi
      have := hno (i + 1) (by simpa using Nat.succ_lt_succ hi)
      simpa using this
    rw [ih b hrest]
    simp

/-- C8: a spawn-only rule dispatches exactly one `SpawnSh` request whose
command is the template with the four placeholders substituted, in order, by
the window id in decimal, the title or empty string, the application id or
empty string, and the pid in decimal or empty string — each substitution
performed by `replaceAll`, which (second and third conjuncts) leaves strings
without an occurrence unchanged and rewrites the leftmost occurrence before
continuing on the remainder, so every occurrence is replaced, not just the
first. -/
theorem c8_spawn_template_substitution :
    (∀ (w : Window) (incl excl : List Match) (tpl : Str) (sock : Sock),
      (take_windowrule_actions w ⟨incl, excl, none, none, none, some tpl⟩
          sock).1 =
        [Request.Action (Action.SpawnSh
          (replaceAll (replaceAll (replaceAll (replaceAll tpl
            phId ((Nat.repr w.id).data))
            phTitle (w.title.getD []))
            phAppId (w.app_id.getD []))
            phPid (match w.pid with
              | none => []
              | some p => (Int.repr p).data)))]) ∧
    (∀ (s pat rep : Str), pat ≠ [] →
      (∀ i < s.length, pat.isPrefixOf (s.drop i) = false) →
      replaceAll s pat rep = s) ∧
    (∀ (a b pat rep : Str), pat ≠ [] →
      (∀ i < a.length, pat.isPrefixOf ((a ++ pat ++ b).drop i) = false) →
      replaceAll (a ++ pat ++ b) pat rep = a ++ rep ++ replaceAll b pat rep) := by
  refine ⟨?_, ?_, ?_⟩
  · intro w incl excl tpl sock
    simp only [take_windowrule_actions, spawn_command, eq_self_iff_true, if_true]
    split <;> rfl
  · intro s pat rep hne hno
    exact replaceAll_of_no_occurrence pat rep hne s hno
  · intro a b pat rep hne hno
    exact replaceAll_leftmost pat rep hne a b hno

/-- Witness for C8: the leftmost-occurrence conjunct applied at a concrete
string split. -/
theorem c8_spawn_template_substitution_witness :
    ((['a'] : Str) ≠ []) ∧
    (∀ i < (['z'] : Str).length,
      (['a'] : Str).isPrefixOf (((['z'] : Str) ++ ['a'] ++ ['b']).drop i) =
        false) ∧
    replaceAll ((['z'] : Str) ++ ['a'] ++ ['b']) ['a'] ['y'] =
      (['z'] : Str) ++ ['y'] ++ replaceAll ['b'] ['a'] ['y'] :=
  ⟨by decide, by decide,
    c8_spawn_template_substitution.2.2 ['z'] ['b'] ['a'] ['y']
      (by decide) (by decide)⟩

end Niri
